import Mathlib

/-!
# Verification of the Movie-Recs collaborative-filtering engine

A shallow embedding of `src/movie_recommendations.py`.  Python dictionaries
are modelled as association lists with Python's update semantics (an
assignment to an existing key updates it in place, a new key is appended at
the end, matching insertion order).  Python `float` ratings and similarity
scores are modelled as rationals.  Dictionary accesses that the source
performs without a membership check (and which would raise `KeyError` on a
malformed store) are totalized with a default; every theorem below is stated
with hypotheses under which the default is never consulted, or models the
raising path as `none`.  A raised exception that aborts a call is modelled
by an `Option`-valued result being `none`.
-/

namespace MovieRecs

/-- Association-list lookup with Python `dict` semantics: the binding for a
key, if any.  (Keys are unique in every list built by `setA` from `[]`.) -/
def lookupA {α : Type} : List (ℤ × α) → ℤ → Option α
  | [], _ => none
  | (k, v) :: t, k' => if k' = k then some v else lookupA t k'

/-- Association-list update with Python `dict` assignment semantics:
`d[k] = v` replaces the binding in place if `k` is present, otherwise
appends the new binding at the end (insertion order). -/
def setA {α : Type} : List (ℤ × α) → ℤ → α → List (ℤ × α)
  | [], k, v => [(k, v)]
  | (k', v') :: t, k, v => if k' = k then (k, v) :: t else (k', v') :: setA t k v

/-- A movie record: `Movie.__init__` in the source. -/
structure Movie where
  id : ℤ
  title : String
  users : List ℤ
  similarities : List (ℤ × ℚ)
deriving DecidableEq

/-- The source's `self.movie_dict`: maps a movie id to its `Movie` object. -/
abbrev MovieDict := List (ℤ × Movie)

/-- The source's `self.user_dict`: maps a user id to a mapping from movie id to rating. -/
abbrev UserDict := List (ℤ × List (ℤ × ℚ))

/-- The `Movie_Recommendations` object state after construction. -/
structure Movie_Recommendations where
  movie_dict : MovieDict
  user_dict : UserDict
deriving DecidableEq

/-- The source's `movie_dict[x].users` (totalized: `[]` when `x` is absent). -/
def usersOf (md : MovieDict) (x : ℤ) : List ℤ :=
  ((lookupA md x).map Movie.users).getD []

/-- The source's `user_dict[u]` (totalized: `{}` when `u` is absent). -/
def innerOf (ud : UserDict) (u : ℤ) : List (ℤ × ℚ) :=
  (lookupA ud u).getD []

/-- The source's `user_dict[u][m]` as an optional value. -/
def ratLookup (ud : UserDict) (u m : ℤ) : Option ℚ :=
  lookupA (innerOf ud u) m

/-- The source's `user_dict[u][m]` totalized with `0` (never consulted at `none` under
the hypotheses of the theorems below). -/
def ratD (ud : UserDict) (u m : ℤ) : ℚ :=
  (ratLookup ud u m).getD 0

/-- The source's `Movie.compute_similarity`: the similarity between the movie whose id is
`selfId` and the movie whose id is `other`, from the rating data. -/
def compute_similarity (selfId other : ℤ) (md : MovieDict) (ud : UserDict) : ℚ :=
  let init_movie_users := usersOf md selfId
  let other_movie_users := usersOf md other
  let users_who_viewed_both := init_movie_users.filter (fun u => u ∈ other_movie_users)
  if users_who_viewed_both.length = 0 then 0
  else
    let init_movie_ratings := users_who_viewed_both.map (fun u => ratD ud u selfId)
    let other_movie_ratings := users_who_viewed_both.map (fun u => ratD ud u other)
    let absolute_difference :=
      List.zipWith (fun a b => |a - b|) init_movie_ratings other_movie_ratings
    let average_difference := absolute_difference.sum / (init_movie_ratings.length : ℚ)
    1 - average_difference / 4.5

/-- The source's `movie.similarities[key] = s`: a single similarity-cache write on a
movie object. -/
def cacheInsert (m : Movie) (key : ℤ) (s : ℚ) : Movie :=
  { m with similarities := setA m.similarities key s }

/-- The source's `Movie.get_similarity`, invoked on the object stored at key `selfKey` of
`movie_dict`.  Returns the similarity value the call returns (`none` models
the source's catch-own-exception path, which prints and returns `None`)
together with the movie dictionary after the cache writes. -/
def get_similarity (selfKey other : ℤ) (md : MovieDict) (ud : UserDict) :
    Option ℚ × MovieDict :=
  match lookupA md selfKey with
  | none => (none, md)
  | some self =>
    if (lookupA md other).isSome then
      match lookupA self.similarities other with
      | some s => (some s, md)
      | none =>
        let s := compute_similarity self.id other md ud
        let md1 := setA md selfKey (cacheInsert self other s)
        let md2 :=
          match lookupA md1 other with
          | some o => setA md1 other (cacheInsert o self.id s)
          | none => md1
        (some s, md2)
    else (none, md)

/-- The accumulation loop of `Movie_Recommendations.predict_rating`: folds
over the movies the user has rated, threading the movie dictionary through
the cache writes of `get_similarity` and accumulating `sim_x_rate_total`
and `sim_total`.  `none` models an exception aborting the loop (which
cannot happen for a well-formed store). -/
def predictLoop (user_id target : ℤ) (ud : UserDict) :
    List ℤ → MovieDict → ℚ → ℚ → Option (ℚ × ℚ × MovieDict)
  | [], md, sxr, stot => some (sxr, stot, md)
  | m :: rest, md, sxr, stot =>
    match ratLookup ud user_id m with
    | none => none
    | some r =>
      match get_similarity m target md ud with
      | (some sim, md1) => predictLoop user_id target ud rest md1 (sxr + sim * r) (stot + sim)
      | (none, _) => none

/-- The source's `Movie_Recommendations.predict_rating`.  `none` models a raised
`BadInputError` (or any other uncaught exception) aborting the call;
`some (p, st')` is the returned prediction together with the state after
the similarity-cache writes. -/
def predict_rating (st : Movie_Recommendations) (user_id movie_id : ℤ) :
    Option (ℚ × Movie_Recommendations) :=
  if (lookupA st.user_dict user_id).isSome ∧ (lookupA st.movie_dict movie_id).isSome then
    if user_id ∈ usersOf st.movie_dict movie_id then
      match ratLookup st.user_dict user_id movie_id with
      | some r => some (r, st)
      | none => none
    else
      let user_rated_movies := (innerOf st.user_dict user_id).map (fun p => p.1)
      match predictLoop user_id movie_id st.user_dict user_rated_movies st.movie_dict 0 0 with
      | some (sxr, stot, md1) =>
        if stot = 0 then some (2.5, ⟨md1, st.user_dict⟩)
        else some (sxr / stot, ⟨md1, st.user_dict⟩)
      | none => none
  else none

/-- The loop of `Movie_Recommendations.predict_ratings` over already-parsed
test records `(user id, movie id, actual rating)`: builds the tuple list,
threading the state through the `predict_rating` calls. -/
def predictBatchLoop (st : Movie_Recommendations) :
    List (ℤ × ℤ × ℚ) → Option (List (ℤ × String × ℚ × ℚ) × Movie_Recommendations)
  | [] => some ([], st)
  | (u, m, a) :: rest =>
    match lookupA st.movie_dict m with
    | none => none
    | some mv =>
      match predict_rating st u m with
      | none => none
      | some (p, st1) =>
        match predictBatchLoop st1 rest with
        | none => none
        | some (l, st2) => some ((u, mv.title, p, a) :: l, st2)

/-- The source's `Movie_Recommendations.predict_ratings`.  After building `tuple_list`
the source unconditionally evaluates `tuple_list[0]` (inside a debug
`print`), so an empty batch raises `IndexError`: modelled by returning
`none` when the built list is empty. -/
def predict_ratings (st : Movie_Recommendations) (tests : List (ℤ × ℤ × ℚ)) :
    Option (List (ℤ × String × ℚ × ℚ) × Movie_Recommendations) :=
  match predictBatchLoop st tests with
  | none => none
  | some (l, st1) => if l.isEmpty then none else some (l, st1)

/-- The movie-loading loop of `Movie_Recommendations.__init__` over
already-parsed `(movieId, title)` records (CSV parsing and the header-line
skip are a boundary concern excluded from the core). -/
def loadMovies (ms : List (ℤ × String)) : MovieDict :=
  ms.foldl (fun md p => setA md p.1 ⟨p.1, p.2, [], []⟩) []

/-- The rating-loading loop of `Movie_Recommendations.__init__` over
already-parsed `(userId, movieId, rating)` records: appends the user to the
movie's `users` list and stores the rating in the nested user dictionary.
`none` models the `KeyError` the source raises when a rating references a
movie id absent from the catalog. -/
def loadRatings : List (ℤ × ℤ × ℚ) → Movie_Recommendations → Option Movie_Recommendations
  | [], st => some st
  | (u, m, r) :: rest, st =>
    match lookupA st.movie_dict m with
    | none => none
    | some mv =>
      let md := setA st.movie_dict m { mv with users := mv.users ++ [u] }
      let ud := setA st.user_dict u (setA (innerOf st.user_dict u) m r)
      loadRatings rest ⟨md, ud⟩

/-- The source's `Movie_Recommendations.__init__` on already-parsed records. -/
def mkRecs (movies : List (ℤ × String)) (ratings : List (ℤ × ℤ × ℚ)) :
    Option Movie_Recommendations :=
  loadRatings ratings ⟨loadMovies movies, []⟩

/-! ## The similarity-cache frame: everything of a movie dictionary except
the `similarities` fields.  Cache writes preserve it. -/

/-- The id, title and raters of every entry — all of the store the
similarity formula and the rating data depend on. -/
def frame (md : MovieDict) : List (ℤ × ℤ × String × List ℤ) :=
  md.map fun p => (p.1, p.2.id, p.2.title, p.2.users)


/-! ## The similarity formula, phrased as the spec phrases it -/

/-- The users who rated both items, as the source iterates them (the
spec's set `U`; a duplicate-free list when the store is well formed). -/
def commonRaters (md : MovieDict) (a b : ℤ) : List ℤ :=
  (usersOf md a).filter (fun u => u ∈ usersOf md b)

/-- The spec's `meanAbsDiff`: the average over common raters of the
absolute difference between their two ratings. -/
def meanAbsDiff (md : MovieDict) (ud : UserDict) (a b : ℤ) : ℚ :=
  ((commonRaters md a b).map (fun u => |ratD ud u a - ratD ud u b|)).sum /
    ((commonRaters md a b).length : ℚ)


/-! ## Well-formedness of a store (all hold after construction) -/

/-- Every movie entry's `id` field equals its key. -/
def idsMatch (md : MovieDict) : Prop := ∀ p ∈ md, p.2.id = p.1

/-- No movie lists the same rater twice (true when the rating records hold
each (user, movie) pair at most once). -/
def usersNodup (md : MovieDict) : Prop := ∀ p ∈ md, p.2.users.Nodup

/-- Every cached similarity equals what `compute_similarity` computes from
the current rating data (caches never go stale: no operation changes the
rating data). -/
def cacheOK (md : MovieDict) (ud : UserDict) : Prop :=
  ∀ p ∈ md, ∀ q ∈ p.2.similarities, q.2 = compute_similarity p.2.id q.1 md ud

/-- Mirrored caches: any two entries hold each other's similarity entry
symmetrically. -/
def cacheSym (md : MovieDict) : Prop :=
  ∀ pa ∈ md, ∀ pb ∈ md,
    lookupA (pa.2 : Movie).similarities pb.1 = lookupA (pb.2 : Movie).similarities pa.1


/-! ## Invariants and spec-side quantities used by the claims -/

/-- The spec's lockstep invariant (section 3): a (user, item) entry exists in
the rating matrix if and only if that user id appears in that item's raters
collection. -/
def lockstep (st : Movie_Recommendations) : Prop :=
  ∀ u m : ℤ, (ratLookup st.user_dict u m).isSome ↔
    ∃ mv, lookupA st.movie_dict m = some mv ∧ u ∈ mv.users

/-- A decidable, membership-bounded form of the lockstep invariant. -/
def lockstepD (st : Movie_Recommendations) : Prop :=
  (∀ pu ∈ st.user_dict, ∀ q ∈ (pu.2 : List (ℤ × ℚ)),
      (lookupA st.movie_dict q.1).isSome ∧ pu.1 ∈ usersOf st.movie_dict q.1) ∧
  (∀ pm ∈ st.movie_dict, ∀ v ∈ (pm.2 : Movie).users,
      (ratLookup st.user_dict v pm.1).isSome)

instance (md : MovieDict) : Decidable (idsMatch md) := by
  unfold idsMatch
  infer_instance

instance (md : MovieDict) : Decidable (usersNodup md) := by
  unfold usersNodup
  infer_instance

instance (md : MovieDict) (ud : UserDict) : Decidable (cacheOK md ud) := by
  unfold cacheOK
  infer_instance

instance (md : MovieDict) : Decidable (cacheSym md) := by
  unfold cacheSym
  infer_instance

instance (st : Movie_Recommendations) : Decidable (lockstepD st) := by
  unfold lockstepD
  infer_instance

/-- The spec's `weightedSum` for a prediction: over every item the user has
rated, the similarity of that item to the target times the user's rating of
that item, with no filtering of negative or zero similarities. -/
def weightedSum (st : Movie_Recommendations) (u target : ℤ) : ℚ :=
  (((innerOf st.user_dict u).map (fun p => p.1)).map
    (fun m => compute_similarity m target st.movie_dict st.user_dict * ratD st.user_dict u m)).sum

/-- The spec's `weightTotal`: the sum of those same similarities. -/
def weightTotal (st : Movie_Recommendations) (u target : ℤ) : ℚ :=
  (((innerOf st.user_dict u).map (fun p => p.1)).map
    (fun m => compute_similarity m target st.movie_dict st.user_dict)).sum

/-- The similarity cache of the movie stored at key `k` (empty when
absent). -/
def simsAt (md : MovieDict) (k : ℤ) : List (ℤ × ℚ) :=
  ((lookupA md k).map Movie.similarities).getD []

/-! ## Concrete stores (the spec's section-8 worked example) -/

/-- The spec's worked example: catalog 1:"A", 2:"B", 3:"C"; ratings
user 1: item 1 -> 5, item 2 -> 1; user 2: item 1 -> 4, item 2 -> 2,
item 3 -> 3. -/
def exSt : Movie_Recommendations :=
  (mkRecs [(1, "A"), (2, "B"), (3, "C")]
    [(1, 1, 5), (1, 2, 1), (2, 1, 4), (2, 2, 2), (2, 3, 3)]).getD ⟨[], []⟩

/-- A one-movie, one-rating store. -/
def tinySt : Movie_Recommendations :=
  (mkRecs [(1, "A")] [(7, 1, 4)]).getD ⟨[], []⟩

/-! ## The evaluation reporter -/

/-- Error kinds of the evaluation reporter (spec sections 4.4 and 7). -/
inductive CorrError where
  | LengthMismatch
  | DegenerateInput
deriving DecidableEq

/-- Mean of a list of rationals. -/
def listMean (xs : List ℚ) : ℚ := xs.sum / (xs.length : ℚ)

/-- Deviations of a list from its mean. -/
def centered (xs : List ℚ) : List ℚ := xs.map (fun x => x - listMean xs)

/-- Sum of pairwise products of two lists. -/
def sumMul (xs ys : List ℚ) : ℚ := (List.zipWith (fun a b => a * b) xs ys).sum

/-- Modelled from the spec: `Movie_Recommendations.correlation` delegates
entirely to `scipy.stats.pearsonr`, a library routine whose code is not in
the repository.  Following section 4.4: the Pearson product-moment
correlation coefficient of two equal-length sequences; fails with
`LengthMismatch` if the lengths differ, and fails with `DegenerateInput`
when either sequence has zero variance (the documented choice between
failing and returning NaN; this also covers sequences shorter than two
elements, whose variance is zero). -/
noncomputable def correlation (predicted actual : List ℚ) : Except CorrError ℝ :=
  if predicted.length ≠ actual.length then .error .LengthMismatch
  else
    let a := centered predicted
    let b := centered actual
    if sumMul a a = 0 ∨ sumMul b b = 0 then .error .DegenerateInput
    else .ok ((sumMul a b : ℝ) / Real.sqrt ((sumMul a a : ℝ) * (sumMul b b : ℝ)))

/-! ## Association-list lemmas -/

theorem lookupA_setA_self {α : Type} (l : List (ℤ × α)) (k : ℤ) (v : α) :
    lookupA (setA l k v) k = some v := by
  induction l with
  | nil => simp [setA, lookupA]
  | cons p t ih =>
    obtain ⟨k', v'⟩ := p
    by_cases h : k' = k
    · simp [setA, h, lookupA]
    · simp [setA, h, lookupA, Ne.symm h, ih]

theorem lookupA_setA_ne {α : Type} (l : List (ℤ × α)) (k k' : ℤ) (v : α)
    (h : k' ≠ k) : lookupA (setA l k v) k' = lookupA l k' := by
  induction l with
  | nil => simp [setA, lookupA, h]
  | cons p t ih =>
    obtain ⟨k₀, v₀⟩ := p
    by_cases h0 : k₀ = k
    · subst h0
      simp [setA, lookupA, h]
    · simp only [setA, if_neg h0, lookupA]
      by_cases h1 : k' = k₀ <;> simp [h1, ih]

theorem mem_setA {α : Type} {l : List (ℤ × α)} {k : ℤ} {v : α} {p : ℤ × α}
    (h : p ∈ setA l k v) : p ∈ l ∨ p = (k, v) := by
  induction l with
  | nil => simpa [setA] using h
  | cons q t ih =>
    obtain ⟨k₀, v₀⟩ := q
    by_cases h0 : k₀ = k
    · simp only [setA, if_pos h0, List.mem_cons] at h
      rcases h with h | h
      · exact Or.inr h
      · exact Or.inl (List.mem_cons_of_mem _ h)
    · simp only [setA, if_neg h0, List.mem_cons] at h
      rcases h with h | h
      · exact Or.inl (by simp [h])
      · rcases ih h with h' | h'
        · exact Or.inl (List.mem_cons_of_mem _ h')
        · exact Or.inr h'

theorem lookupA_mem {α : Type} {l : List (ℤ × α)} {k : ℤ} {v : α}
    (h : lookupA l k = some v) : (k, v) ∈ l := by
  induction l with
  | nil => simp [lookupA] at h
  | cons q t ih =>
    obtain ⟨k₀, v₀⟩ := q
    by_cases h0 : k = k₀
    · subst h0
      simp only [lookupA, if_pos rfl, if_true, eq_self_iff_true, Option.some.injEq] at h
      simp [← h]
    · simp only [lookupA, if_neg h0] at h
      exact List.mem_cons_of_mem _ (ih h)

theorem lookupA_frame (md : MovieDict) (x : ℤ) :
    lookupA (frame md) x = (lookupA md x).map fun m => (m.id, m.title, m.users) := by
  induction md with
  | nil => simp [frame, lookupA]
  | cons q t ih =>
    by_cases h : x = q.1 <;> simp [frame, lookupA, h, ← ih]

theorem usersOf_eq_frame (md : MovieDict) (x : ℤ) :
    usersOf md x = ((lookupA (frame md) x).map fun t => t.2.2).getD [] := by
  rw [lookupA_frame]
  unfold usersOf
  cases lookupA md x <;> simp

theorem usersOf_congr {md md' : MovieDict} (h : frame md = frame md') (x : ℤ) :
    usersOf md x = usersOf md' x := by
  rw [usersOf_eq_frame, usersOf_eq_frame, h]

theorem isSome_congr {md md' : MovieDict} (h : frame md = frame md') (x : ℤ) :
    (lookupA md x).isSome = (lookupA md' x).isSome := by
  have h1 : (lookupA (frame md) x).isSome = (lookupA (frame md') x).isSome := by rw [h]
  rw [lookupA_frame, lookupA_frame] at h1
  simpa using h1

theorem frame_setA {md : MovieDict} {k : ℤ} {mv mv' : Movie}
    (h : lookupA md k = some mv) (hid : mv'.id = mv.id) (ht : mv'.title = mv.title)
    (hu : mv'.users = mv.users) : frame (setA md k mv') = frame md := by
  induction md with
  | nil => simp [lookupA] at h
  | cons q t ih =>
    obtain ⟨k₀, v₀⟩ := q
    by_cases h0 : k₀ = k
    · subst h0
      simp only [lookupA, if_pos rfl, if_true, eq_self_iff_true, Option.some.injEq] at h
      simp [setA, frame, hid, ht, hu, h]
    · have hk : ¬ (k = k₀) := fun hkk => h0 hkk.symm
      simp only [lookupA, if_neg hk] at h
      simp only [setA, if_neg h0, frame, List.map_cons]
      exact congrArg (List.cons _) (ih h)

theorem compute_similarity_eq (a b : ℤ) (md : MovieDict) (ud : UserDict) :
    compute_similarity a b md ud =
      if commonRaters md a b = [] then 0
      else 1 - meanAbsDiff md ud a b / 4.5 := by
  unfold compute_similarity commonRaters meanAbsDiff
  by_cases h : (usersOf md a).filter (fun u => u ∈ usersOf md b) = []
  · simp [h]
  · have hlen : ¬ ((usersOf md a).filter (fun u => u ∈ usersOf md b)).length = 0 := by
      simpa [List.length_eq_zero] using h
    simp [h, hlen, commonRaters, List.zipWith_map, List.zipWith_same]

theorem usersOf_nodup {md : MovieDict} (hnd : usersNodup md) (x : ℤ) :
    (usersOf md x).Nodup := by
  cases h : lookupA md x with
  | none => simp [usersOf, h]
  | some mv => simpa [usersOf, h] using hnd _ (lookupA_mem h)

theorem compute_similarity_comm {md : MovieDict} (hnd : usersNodup md)
    (ud : UserDict) (a b : ℤ) :
    compute_similarity a b md ud = compute_similarity b a md ud := by
  rw [compute_similarity_eq, compute_similarity_eq]
  have hperm : (commonRaters md a b).Perm (commonRaters md b a) := by
    refine (List.perm_ext_iff_of_nodup ?_ ?_).2 ?_
    · exact (usersOf_nodup hnd a).filter _
    · exact (usersOf_nodup hnd b).filter _
    · intro u
      simp only [commonRaters, List.mem_filter, decide_eq_true_eq]
      tauto
  by_cases h : commonRaters md a b = []
  · have h2 : commonRaters md b a = [] := (h ▸ hperm).symm.eq_nil
    simp [h, h2]
  · have h2 : commonRaters md b a ≠ [] := fun he => h (he ▸ hperm).eq_nil
    have hsum : ((commonRaters md a b).map (fun u => |ratD ud u a - ratD ud u b|)).sum
        = ((commonRaters md b a).map (fun u => |ratD ud u b - ratD ud u a|)).sum := by
      have hf : (fun u => |ratD ud u a - ratD ud u b|)
          = (fun u => |ratD ud u b - ratD ud u a|) :=
        funext fun u => abs_sub_comm _ _
      rw [hf]
      exact (hperm.map _).sum_eq
    have hlen := hperm.length_eq
    simp [h, h2, meanAbsDiff, hsum, hlen]

theorem idsMatch_setA {md : MovieDict} {k : ℤ} {v : Movie}
    (h : idsMatch md) (hv : v.id = k) : idsMatch (setA md k v) := by
  intro p hp
  rcases mem_setA hp with hp' | hp'
  · exact h p hp'
  · subst hp'; exact hv

theorem usersNodup_setA {md : MovieDict} {k : ℤ} {v : Movie}
    (h : usersNodup md) (hv : v.users.Nodup) : usersNodup (setA md k v) := by
  intro p hp
  rcases mem_setA hp with hp' | hp'
  · exact h p hp'
  · subst hp'; exact hv

theorem compute_similarity_congr {md md' : MovieDict} (h : frame md = frame md')
    (a b : ℤ) (ud : UserDict) :
    compute_similarity a b md ud = compute_similarity a b md' ud := by
  unfold compute_similarity
  rw [usersOf_congr h a, usersOf_congr h b]

theorem cacheInsert_id (m : Movie) (key : ℤ) (s : ℚ) : (cacheInsert m key s).id = m.id := rfl

theorem cacheInsert_title (m : Movie) (key : ℤ) (s : ℚ) :
    (cacheInsert m key s).title = m.title := rfl

theorem cacheInsert_users (m : Movie) (key : ℤ) (s : ℚ) :
    (cacheInsert m key s).users = m.users := rfl

/-- The source's `get_similarity` only writes similarity caches: ids, titles, raters and
the key set are untouched. -/
theorem get_similarity_frame (a b : ℤ) (md : MovieDict) (ud : UserDict) :
    frame (get_similarity a b md ud).2 = frame md := by
  unfold get_similarity
  cases ha : lookupA md a with
  | none => rfl
  | some self =>
    by_cases hb : (lookupA md b).isSome
    · simp only [hb, if_true]
      cases hs : lookupA self.similarities b with
      | some s => rfl
      | none =>
        simp only []
        have h1 : frame (setA md a
            (cacheInsert self b (compute_similarity self.id b md ud))) = frame md :=
          frame_setA ha rfl rfl rfl
        cases ho : lookupA (setA md a
            (cacheInsert self b (compute_similarity self.id b md ud))) b with
        | none => simpa [ho] using h1
        | some o =>
          simp only [ho]
          exact (frame_setA ho (cacheInsert_id o self.id _) (cacheInsert_title o self.id _)
            (cacheInsert_users o self.id _)).trans h1
    · simp [hb]

/-- A single cache write preserves cache consistency when the value written
is what the formula computes for that pair. -/
theorem cacheOK_setA {md : MovieDict} {ud : UserDict} {k key : ℤ} {mv : Movie} {s : ℚ}
    (hok : cacheOK md ud) (hmv : lookupA md k = some mv)
    (hs : s = compute_similarity mv.id key md ud) :
    cacheOK (setA md k (cacheInsert mv key s)) ud := by
  have hframe : frame (setA md k (cacheInsert mv key s)) = frame md :=
    frame_setA hmv rfl rfl rfl
  intro p hp q hq
  rw [compute_similarity_congr hframe]
  rcases mem_setA hp with hp' | hp'
  · exact hok p hp' q hq
  · subst hp'
    simp only [cacheInsert] at hq
    rcases mem_setA hq with hq' | hq'
    · exact hok _ (lookupA_mem hmv) q hq'
    · subst hq'
      exact hs

theorem get_similarity_hit_eq {md : MovieDict} (ud : UserDict) {a b : ℤ} {self : Movie} {s : ℚ}
    (hself : lookupA md a = some self) (hb : (lookupA md b).isSome)
    (hs : lookupA self.similarities b = some s) :
    get_similarity a b md ud = (some s, md) := by
  simp [get_similarity, hself, hb, hs]

theorem get_similarity_miss_eq {md : MovieDict} (ud : UserDict) {a b : ℤ} {self o : Movie}
    (hself : lookupA md a = some self) (hb : (lookupA md b).isSome)
    (hs : lookupA self.similarities b = none)
    (ho : lookupA (setA md a (cacheInsert self b (compute_similarity self.id b md ud))) b
        = some o) :
    get_similarity a b md ud =
      (some (compute_similarity self.id b md ud),
       setA (setA md a (cacheInsert self b (compute_similarity self.id b md ud))) b
         (cacheInsert o self.id (compute_similarity self.id b md ud))) := by
  simp [get_similarity, hself, hb, hs, ho]

/-- On a consistent, well-formed store, `get_similarity` of two known items
returns exactly the similarity formula's value and leaves the caches
consistent. -/
theorem get_similarity_total {md : MovieDict} {ud : UserDict} (a b : ℤ)
    (hok : cacheOK md ud) (hids : idsMatch md) (hnd : usersNodup md)
    (ha : (lookupA md a).isSome) (hb : (lookupA md b).isSome) :
    (get_similarity a b md ud).1 = some (compute_similarity a b md ud) ∧
    cacheOK (get_similarity a b md ud).2 ud := by
  obtain ⟨self, hself⟩ := Option.isSome_iff_exists.mp ha
  have hmem : (a, self) ∈ md := lookupA_mem hself
  have hid : self.id = a := hids _ hmem
  cases hs : lookupA self.similarities b with
  | some s =>
    have heq := get_similarity_hit_eq ud hself hb hs
    have hval : s = compute_similarity a b md ud := by
      have := hok _ hmem _ (lookupA_mem hs)
      simpa [hid] using this
    rw [heq]
    exact ⟨by rw [hval], hok⟩
  | none =>
    have hok1 : cacheOK (setA md a (cacheInsert self b (compute_similarity self.id b md ud))) ud :=
      cacheOK_setA hok hself rfl
    have hids1 : idsMatch (setA md a (cacheInsert self b (compute_similarity self.id b md ud))) :=
      idsMatch_setA hids (by simpa [cacheInsert] using hid)
    have hnd1 : usersNodup (setA md a (cacheInsert self b (compute_similarity self.id b md ud))) :=
      usersNodup_setA hnd (by simpa [cacheInsert] using hnd _ hmem)
    have hframe1 : frame (setA md a (cacheInsert self b (compute_similarity self.id b md ud)))
        = frame md := frame_setA hself rfl rfl rfl
    have hb1 : (lookupA (setA md a (cacheInsert self b (compute_similarity self.id b md ud)))
        b).isSome := by
      by_cases hba : b = a
      · subst hba
        rw [lookupA_setA_self]
        rfl
      · rw [lookupA_setA_ne _ _ _ _ hba]
        exact hb
    obtain ⟨o, ho⟩ := Option.isSome_iff_exists.mp hb1
    have hoid : o.id = b := hids1 _ (lookupA_mem ho)
    have heq := get_similarity_miss_eq ud hself hb hs ho
    have hcomm : compute_similarity self.id b md ud
        = compute_similarity o.id self.id
            (setA md a (cacheInsert self b (compute_similarity self.id b md ud))) ud := by
      calc compute_similarity self.id b md ud
          = compute_similarity a b md ud := by rw [hid]
        _ = compute_similarity a b
              (setA md a (cacheInsert self b (compute_similarity self.id b md ud))) ud :=
            (compute_similarity_congr hframe1 a b ud).symm
        _ = compute_similarity b a
              (setA md a (cacheInsert self b (compute_similarity self.id b md ud))) ud :=
            compute_similarity_comm hnd1 ud a b
        _ = _ := by rw [hoid, hid]
    have hok2 := cacheOK_setA hok1 ho hcomm
    rw [heq]
    exact ⟨by rw [hid], hok2⟩

theorem mem_frame {md md' : MovieDict} (h : frame md' = frame md) {p : ℤ × Movie}
    (hp : p ∈ md') :
    ∃ q ∈ md, q.1 = p.1 ∧ q.2.id = p.2.id ∧ q.2.title = p.2.title ∧ q.2.users = p.2.users := by
  have hm : (p.1, p.2.id, p.2.title, p.2.users) ∈ frame md := by
    rw [← h]
    exact List.mem_map_of_mem _ hp
  obtain ⟨q, hq, hfq⟩ := List.mem_map.mp hm
  refine ⟨q, hq, ?_, ?_, ?_, ?_⟩ <;> simp_all [Prod.ext_iff]

theorem idsMatch_congr {md md' : MovieDict} (h : frame md' = frame md)
    (hids : idsMatch md) : idsMatch md' := by
  intro p hp
  obtain ⟨q, hq, h1, h2, _, _⟩ := mem_frame h hp
  rw [← h1, ← h2]
  exact hids q hq

theorem usersNodup_congr {md md' : MovieDict} (h : frame md' = frame md)
    (hnd : usersNodup md) : usersNodup md' := by
  intro p hp
  obtain ⟨q, hq, _, _, _, h4⟩ := mem_frame h hp
  rw [← h4]
  exact hnd q hq

/-- The accumulation loop computes exactly `weightedSum` and `weightTotal`
over the listed movies — the similarity of every listed movie to the
target, unfiltered, times (resp. not times) the user's rating — and
preserves the store's frame and cache consistency. -/
theorem predictLoop_spec {ud : UserDict} (u target : ℤ) (l : List ℤ) (md : MovieDict)
    (sxr stot : ℚ)
    (hok : cacheOK md ud) (hids : idsMatch md) (hnd : usersNodup md)
    (htgt : (lookupA md target).isSome)
    (hl : ∀ m ∈ l, (lookupA md m).isSome)
    (hr : ∀ m ∈ l, (ratLookup ud u m).isSome) :
    ∃ md', predictLoop u target ud l md sxr stot =
        some (sxr + (l.map (fun m => compute_similarity m target md ud * ratD ud u m)).sum,
              stot + (l.map (fun m => compute_similarity m target md ud)).sum, md')
      ∧ frame md' = frame md ∧ cacheOK md' ud := by
  induction l generalizing md sxr stot with
  | nil => exact ⟨md, by simp [predictLoop], rfl, hok⟩
  | cons m rest ih =>
    obtain ⟨r, hrm⟩ := Option.isSome_iff_exists.mp (hr m (by simp))
    have hm : (lookupA md m).isSome := hl m (by simp)
    obtain ⟨hval, hok1⟩ := get_similarity_total m target hok hids hnd hm htgt
    have hframe1 : frame (get_similarity m target md ud).2 = frame md :=
      get_similarity_frame m target md ud
    cases hgs : get_similarity m target md ud with
    | mk v md1 =>
      rw [hgs] at hval hok1 hframe1
      simp only at hval hok1 hframe1
      have hstep : predictLoop u target ud (m :: rest) md sxr stot
          = predictLoop u target ud rest md1
              (sxr + compute_similarity m target md ud * r)
              (stot + compute_similarity m target md ud) := by
        simp [predictLoop, hrm, hgs, hval]
      have hids1 : idsMatch md1 := idsMatch_congr hframe1 hids
      have hnd1 : usersNodup md1 := usersNodup_congr hframe1 hnd
      have htgt1 : (lookupA md1 target).isSome := by
        rw [isSome_congr hframe1]
        exact htgt
      have hl1 : ∀ m' ∈ rest, (lookupA md1 m').isSome := fun m' hm' => by
        rw [isSome_congr hframe1]
        exact hl m' (by simp [hm'])
      have hr1 : ∀ m' ∈ rest, (ratLookup ud u m').isSome := fun m' hm' =>
        hr m' (by simp [hm'])
      obtain ⟨md2, hres, hframe2, hok2⟩ :=
        ih md1 (sxr + compute_similarity m target md ud * r)
          (stot + compute_similarity m target md ud) hok1 hids1 hnd1 htgt1 hl1 hr1
      have hfun : (fun m' => compute_similarity m' target md1 ud)
          = (fun m' => compute_similarity m' target md ud) :=
        funext fun m' => compute_similarity_congr hframe1 m' target ud
      have hfun2 : (fun m' => compute_similarity m' target md1 ud * ratD ud u m')
          = (fun m' => compute_similarity m' target md ud * ratD ud u m') := by
        rw [show (fun m' => compute_similarity m' target md1 ud * ratD ud u m')
            = (fun m' => (fun x => compute_similarity x target md1 ud) m' * ratD ud u m')
            from rfl, hfun]
      refine ⟨md2, ?_, hframe2.trans hframe1, hok2⟩
      rw [hstep, hres, hfun, hfun2]
      have hratd : ratD ud u m = r := by simp [ratD, hrm]
      simp [hratd]
      constructor <;> ring

theorem lookupA_users_congr {md md' : MovieDict} (h : frame md' = frame md) (k : ℤ) :
    (lookupA md' k).map Movie.users = (lookupA md k).map Movie.users := by
  have h2 : lookupA (frame md') k = lookupA (frame md) k := by rw [h]
  rw [lookupA_frame, lookupA_frame] at h2
  have h3 := congrArg (Option.map fun t : ℤ × String × List ℤ => t.2.2) h2
  simpa [Option.map_map, Function.comp] using h3

theorem predictLoop_frame {u target : ℤ} {ud : UserDict} :
    ∀ (l : List ℤ) (md : MovieDict) (sxr stot : ℚ) (res : ℚ × ℚ × MovieDict),
    predictLoop u target ud l md sxr stot = some res → frame res.2.2 = frame md := by
  intro l
  induction l with
  | nil =>
    intro md sxr stot res h
    simp only [predictLoop, Option.some.injEq] at h
    rw [← h]
  | cons m rest ih =>
    intro md sxr stot res h
    simp only [predictLoop] at h
    cases hr : ratLookup ud u m with
    | none => rw [hr] at h; simp at h
    | some r =>
      rw [hr] at h
      simp only at h
      cases hgs : get_similarity m target md ud with
      | mk v md1 =>
        rw [hgs] at h
        cases v with
        | none => simp at h
        | some sim =>
          simp only at h
          have hfr : frame md1 = frame md := by
            have := get_similarity_frame m target md ud
            rw [hgs] at this
            exact this
          exact (ih md1 _ _ res h).trans hfr

theorem innerOf_setA_self (ud : UserDict) (u : ℤ) (x : List (ℤ × ℚ)) :
    innerOf (setA ud u x) u = x := by
  simp [innerOf, lookupA_setA_self]

theorem innerOf_setA_ne (ud : UserDict) (u u' : ℤ) (x : List (ℤ × ℚ)) (h : u' ≠ u) :
    innerOf (setA ud u x) u' = innerOf ud u' := by
  simp [innerOf, lookupA_setA_ne _ _ _ _ h]

theorem lookupA_isSome_of_mem_keys {α : Type} {l : List (ℤ × α)} {m : ℤ}
    (h : m ∈ l.map (fun p => p.1)) : (lookupA l m).isSome := by
  induction l with
  | nil => simp at h
  | cons q t ih =>
    by_cases h0 : m = q.1
    · simp [lookupA, h0]
    · simp only [List.map_cons, List.mem_cons] at h
      rcases h with h | h

      · exact absurd h h0
      · simp only [lookupA]
        rw [if_neg h0]
        exact ih h

/-! ## Construction establishes the lockstep invariant -/

theorem loadMovies_users (ms : List (ℤ × String)) :
    ∀ p ∈ loadMovies ms, (p.2 : Movie).users = [] := by
  have haux : ∀ (t : List (ℤ × String)) (md0 : MovieDict),
      (∀ p ∈ md0, (p.2 : Movie).users = []) →
      ∀ p ∈ t.foldl (fun md q => setA md q.1 ⟨q.1, q.2, [], []⟩) md0,
        (p.2 : Movie).users = [] := by
    intro t
    induction t with
    | nil => intro md0 h; simpa using h
    | cons q rest ih =>
      intro md0 h p hp
      refine ih _ ?_ p hp
      intro p' hp'
      rcases mem_setA hp' with h' | h'
      · exact h p' h'
      · rw [h']
  exact haux ms [] (by simp)

theorem loadRatings_lockstep :
    ∀ (rs : List (ℤ × ℤ × ℚ)) (st st' : Movie_Recommendations),
    loadRatings rs st = some st' → lockstep st → lockstep st' := by
  intro rs
  induction rs with
  | nil =>
    intro st st' h hls
    simp only [loadRatings, Option.some.injEq] at h
    rw [← h]
    exact hls
  | cons rec rest ih =>
    intro st st' h hls
    obtain ⟨u, m, r⟩ := rec
    simp only [loadRatings] at h
    cases hmv : lookupA st.movie_dict m with
    | none => rw [hmv] at h; simp at h
    | some mv =>
      rw [hmv] at h
      simp only at h
      refine ih _ _ h ?_
      intro u' m'
      constructor
      · intro hrl
        by_cases hu : u' = u
        · subst hu
          rw [show ratLookup
                (setA st.user_dict u' (setA (innerOf st.user_dict u') m r)) u' m'
              = lookupA (setA (innerOf st.user_dict u') m r) m' from by
                simp [ratLookup, innerOf_setA_self]] at hrl
          by_cases hm : m' = m
          · subst hm
            exact ⟨_, lookupA_setA_self _ _ _, by simp⟩
          · rw [lookupA_setA_ne _ _ _ _ hm] at hrl
            obtain ⟨mv0, hmv0, hmem0⟩ := (hls u' m').mp hrl
            by_cases hmm : m' = m
            · exact absurd hmm hm
            · refine ⟨mv0, ?_, hmem0⟩
              rw [lookupA_setA_ne _ _ _ _ hmm]
              exact hmv0
        · rw [show ratLookup
                (setA st.user_dict u (setA (innerOf st.user_dict u) m r)) u' m'
              = ratLookup st.user_dict u' m' from by
                simp [ratLookup, innerOf_setA_ne _ _ _ _ hu]] at hrl
          obtain ⟨mv0, hmv0, hmem0⟩ := (hls u' m').mp hrl
          by_cases hmm : m' = m
          · subst hmm
            rw [hmv0] at hmv
            injection hmv with hmv
            refine ⟨_, lookupA_setA_self _ _ _, ?_⟩
            simp [← hmv, hmem0]
          · refine ⟨mv0, ?_, hmem0⟩
            rw [lookupA_setA_ne _ _ _ _ hmm]
            exact hmv0
      · intro hex
        obtain ⟨mv1, hmv1, hmem1⟩ := hex
        by_cases hm : m' = m
        · subst hm
          rw [lookupA_setA_self] at hmv1
          injection hmv1 with hmv1
          rw [← hmv1] at hmem1
          simp only [List.mem_append, List.mem_singleton] at hmem1
          by_cases hu : u' = u
          · subst hu
            simp [ratLookup, innerOf_setA_self, lookupA_setA_self]
          · rcases hmem1 with hmem1 | hmem1
            · have := (hls u' m').mpr ⟨mv, hmv, hmem1⟩
              rw [show ratLookup
                    (setA st.user_dict u (setA (innerOf st.user_dict u) m' r)) u' m'
                  = ratLookup st.user_dict u' m' from by
                    simp [ratLookup, innerOf_setA_ne _ _ _ _ hu]]
              exact this
            · exact absurd hmem1 hu
        · rw [lookupA_setA_ne _ _ _ _ hm] at hmv1
          have hold := (hls u' m').mpr ⟨mv1, hmv1, hmem1⟩
          by_cases hu : u' = u
          · subst hu
            rw [show ratLookup
                  (setA st.user_dict u' (setA (innerOf st.user_dict u') m r)) u' m'
                = lookupA (setA (innerOf st.user_dict u') m r) m' from by
                  simp [ratLookup, innerOf_setA_self]]
            rw [lookupA_setA_ne _ _ _ _ hm]
            exact hold
          · rw [show ratLookup
                  (setA st.user_dict u (setA (innerOf st.user_dict u) m r)) u' m'
                = ratLookup st.user_dict u' m' from by
                  simp [ratLookup, innerOf_setA_ne _ _ _ _ hu]]
            exact hold

theorem mkRecs_lockstep {movies : List (ℤ × String)} {ratings : List (ℤ × ℤ × ℚ)}
    {st : Movie_Recommendations} (h : mkRecs movies ratings = some st) : lockstep st := by
  refine loadRatings_lockstep ratings _ st h ?_
  intro u m
  constructor
  · intro hrl
    simp [ratLookup, innerOf, lookupA] at hrl
  · intro hex
    obtain ⟨mv, hmv, hmem⟩ := hex
    have := loadMovies_users movies _ (lookupA_mem hmv)
    rw [this] at hmem
    simp at hmem

/-! ## The claims -/

/-- C2: for every known user and known item such that the user has already
rated that item, `predict_rating` returns exactly the stored rating from
the rating matrix, with the state unchanged — no similarity is computed or
consulted, so the result is independent of what any similarity would
evaluate to. -/
theorem claim_C2_pass_through (st : Movie_Recommendations) (u m : ℤ) (r : ℚ)
    (hu : (lookupA st.user_dict u).isSome)
    (hm : (lookupA st.movie_dict m).isSome)
    (hmem : u ∈ usersOf st.movie_dict m)
    (hr : ratLookup st.user_dict u m = some r) :
    predict_rating st u m = some (r, st) := by
  unfold predict_rating
  rw [if_pos ⟨hu, hm⟩, if_pos hmem, hr]

/-- Witness for C2 on the worked example: user 1 rated movie 1 with 5, and
the prediction returns exactly 5 with the store unchanged. -/
theorem claim_C2_witness : predict_rating exSt 1 1 = some (5, exSt) :=
  claim_C2_pass_through exSt 1 1 5 (by decide) (by decide) (by decide) (by decide)

/-- C6: `predict_rating` fails when the user id is not in the rating store,
fails when the item id is not in the catalog, and succeeds with a value
only when both ids are known.  (The source signals both failures with its
single `BadInputError` exception.) -/
theorem claim_C6_unknown_ids (st : Movie_Recommendations) (u m : ℤ) :
    (lookupA st.user_dict u = none → predict_rating st u m = none) ∧
    (lookupA st.movie_dict m = none → predict_rating st u m = none) ∧
    (∀ r st', predict_rating st u m = some (r, st') →
      (lookupA st.user_dict u).isSome ∧ (lookupA st.movie_dict m).isSome) := by
  refine ⟨fun h => ?_, fun h => ?_, fun r st' h => ?_⟩
  · have hng : ¬ ((lookupA st.user_dict u).isSome ∧ (lookupA st.movie_dict m).isSome) := by
      simp [h]
    unfold predict_rating
    rw [if_neg hng]
  · have hng : ¬ ((lookupA st.user_dict u).isSome ∧ (lookupA st.movie_dict m).isSome) := by
      simp [h]
    unfold predict_rating
    rw [if_neg hng]
  · by_cases hg : (lookupA st.user_dict u).isSome ∧ (lookupA st.movie_dict m).isSome
    · exact hg
    · unfold predict_rating at h
      rw [if_neg hg] at h
      simp at h

/-- Witness for C6, the spec's own test: user 999 is unknown and movie 999
is unknown on the worked example. -/
theorem claim_C6_witness :
    predict_rating exSt 999 1 = none ∧ predict_rating exSt 1 999 = none :=
  ⟨(claim_C6_unknown_ids exSt 999 1).1 (by decide),
   (claim_C6_unknown_ids exSt 1 999).2.1 (by decide)⟩

/-- C7: after a first call `get_similarity a b` has returned value `v` in
state `md'`, a second identical call returns the same value `v` and leaves
the state exactly `md'` (it is answered from the cache), and the first
call left the entry — similarity cache included — of every item other
than `a` and `b` untouched. -/
theorem claim_C7_memoized (md : MovieDict) (ud : UserDict) (a b : ℤ) (v : ℚ)
    (md' : MovieDict) (hab : a ≠ b)
    (h : get_similarity a b md ud = (some v, md')) :
    get_similarity a b md' ud = (some v, md') ∧
    ∀ c, c ≠ a → c ≠ b → lookupA md' c = lookupA md c := by
  have hba : b ≠ a := Ne.symm hab
  unfold get_similarity at h
  cases hself : lookupA md a with
  | none =>
    rw [hself] at h
    simp at h
  | some self =>
    rw [hself] at h
    simp only at h
    by_cases hb : (lookupA md b).isSome
    · rw [if_pos hb] at h
      cases hs : lookupA self.similarities b with
      | some s =>
        rw [hs] at h
        simp only [Prod.mk.injEq, Option.some.injEq] at h
        obtain ⟨hv, hmd⟩ := h
        subst hv
        subst hmd
        exact ⟨get_similarity_hit_eq ud hself hb hs, fun c _ _ => rfl⟩
      | none =>
        rw [hs] at h
        simp only at h
        obtain ⟨o, ho⟩ := Option.isSome_iff_exists.mp hb
        have ho1 : lookupA (setA md a
            (cacheInsert self b (compute_similarity self.id b md ud))) b = some o := by
          rw [lookupA_setA_ne _ _ _ _ hba]
          exact ho
        rw [ho1] at h
        simp only [Prod.mk.injEq, Option.some.injEq] at h
        obtain ⟨hv, hmd⟩ := h
        subst hv
        constructor
        · have hself' : lookupA md' a
              = some (cacheInsert self b (compute_similarity self.id b md ud)) := by
            rw [← hmd, lookupA_setA_ne _ _ _ _ hab, lookupA_setA_self]
          have hb' : (lookupA md' b).isSome := by
            rw [← hmd, lookupA_setA_self]
            rfl
          have hs' : lookupA (cacheInsert self b
              (compute_similarity self.id b md ud)).similarities b
              = some (compute_similarity self.id b md ud) := by
            simp [cacheInsert, lookupA_setA_self]
          exact get_similarity_hit_eq ud hself' hb' hs'
        · intro c hca hcb
          rw [← hmd, lookupA_setA_ne _ _ _ _ hcb, lookupA_setA_ne _ _ _ _ hca]
    · rw [if_neg hb] at h
      simp at h

/-- Witness for C7 on the worked example: the first call to
`get_similarity 1 3` yields 7/9; repeating the call on the resulting state
returns the identical value and changes nothing. -/
theorem claim_C7_witness :
    get_similarity 1 3 (get_similarity 1 3 exSt.movie_dict exSt.user_dict).2 exSt.user_dict
      = (some (7/9), (get_similarity 1 3 exSt.movie_dict exSt.user_dict).2) :=
  (claim_C7_memoized exSt.movie_dict exSt.user_dict 1 3 (7/9)
    (get_similarity 1 3 exSt.movie_dict exSt.user_dict).2 (by decide)
    (by norm_num [get_similarity, compute_similarity, usersOf, ratD, ratLookup, innerOf,
      lookupA, exSt, mkRecs, loadMovies, loadRatings, setA, cacheInsert])).1

/-- C8: after construction, a (user, item) entry exists in the rating
matrix iff the user appears in that item's raters list; and no operation
other than construction modifies either structure — from any state,
`predict_rating` keeps the user dictionary and every raters list
unchanged, and so does `get_similarity`. -/
theorem claim_C8_lockstep (movies : List (ℤ × String)) (ratings : List (ℤ × ℤ × ℚ))
    (st : Movie_Recommendations) (h : mkRecs movies ratings = some st) :
    lockstep st ∧
    (∀ (st0 : Movie_Recommendations) (u m : ℤ) (p : ℚ) (st1 : Movie_Recommendations),
       predict_rating st0 u m = some (p, st1) →
       st1.user_dict = st0.user_dict ∧
       ∀ k, (lookupA st1.movie_dict k).map Movie.users
           = (lookupA st0.movie_dict k).map Movie.users) ∧
    (∀ (md : MovieDict) (ud : UserDict) (a b k : ℤ),
       (lookupA (get_similarity a b md ud).2 k).map Movie.users
           = (lookupA md k).map Movie.users) := by
  refine ⟨mkRecs_lockstep h, ?_, ?_⟩
  · intro st0 u m p st1 hpr
    unfold predict_rating at hpr
    by_cases hg : (lookupA st0.user_dict u).isSome ∧ (lookupA st0.movie_dict m).isSome
    · rw [if_pos hg] at hpr
      by_cases hmem : u ∈ usersOf st0.movie_dict m
      · rw [if_pos hmem] at hpr
        cases hr : ratLookup st0.user_dict u m with
        | none =>
          rw [hr] at hpr
          simp at hpr
        | some r0 =>
          rw [hr] at hpr
          simp only [Option.some.injEq, Prod.mk.injEq] at hpr
          obtain ⟨-, hst⟩ := hpr
          rw [← hst]
          exact ⟨rfl, fun k => rfl⟩
      · rw [if_neg hmem] at hpr
        dsimp only at hpr
        cases hloop : predictLoop u m st0.user_dict
            ((innerOf st0.user_dict u).map (fun p => p.1)) st0.movie_dict 0 0 with
        | none =>
          rw [hloop] at hpr
          simp at hpr
        | some res =>
          obtain ⟨sxr, stot, md1⟩ := res
          rw [hloop] at hpr
          simp only at hpr
          have hfr : frame md1 = frame st0.movie_dict :=
            predictLoop_frame _ _ _ _ _ hloop
          by_cases hz : stot = 0
          · rw [if_pos hz] at hpr
            simp only [Option.some.injEq, Prod.mk.injEq] at hpr
            obtain ⟨-, hst⟩ := hpr
            rw [← hst]
            exact ⟨rfl, fun k => lookupA_users_congr hfr k⟩
          · rw [if_neg hz] at hpr
            simp only [Option.some.injEq, Prod.mk.injEq] at hpr
            obtain ⟨-, hst⟩ := hpr
            rw [← hst]
            exact ⟨rfl, fun k => lookupA_users_congr hfr k⟩
    · rw [if_neg hg] at hpr
      simp at hpr
  · intro md ud a b k
    exact lookupA_users_congr (get_similarity_frame a b md ud) k

/-- Witness for C8: the worked example's construction succeeds and yields a
store satisfying the lockstep invariant. -/
theorem claim_C8_witness : lockstep exSt :=
  (claim_C8_lockstep [(1, "A"), (2, "B"), (3, "C")]
    [(1, 1, 5), (1, 2, 1), (2, 1, 4), (2, 2, 2), (2, 3, 3)] exSt (by decide)).1

/-- C10: `predict_ratings` cannot return the empty list of tuples: on the
empty query batch it fails (the source unconditionally indexes
`tuple_list[0]` after building the list), and whenever it succeeds the
returned list is nonempty. -/
theorem claim_C10_empty_batch (st : Movie_Recommendations) :
    predict_ratings st [] = none ∧
    ∀ tests res, predict_ratings st tests = some res → res.1 ≠ [] := by
  constructor
  · rfl
  · intro tests res h
    unfold predict_ratings at h
    cases hb : predictBatchLoop st tests with
    | none =>
      rw [hb] at h
      simp at h
    | some p =>
      obtain ⟨l, st1⟩ := p
      rw [hb] at h
      simp only at h
      by_cases he : l.isEmpty
      · rw [if_pos he] at h
        simp at h
      · rw [if_neg he] at h
        simp only [Option.some.injEq] at h
        rw [← h]
        simpa using he

/-- Witness for C10: the empty batch fails on the one-movie store, while the
one-record batch succeeds with a nonempty result. -/
theorem claim_C10_witness :
    predict_ratings tinySt [] = none ∧
    ((predict_ratings tinySt [(7, 1, 4)]).getD ([], tinySt)).1 ≠ [] :=
  ⟨(claim_C10_empty_batch tinySt).1,
   (claim_C10_empty_batch tinySt).2 [(7, 1, 4)] _ (by decide)⟩

/-- C5: evaluating the code at the failing input.  A similarity query whose
other item id (999) is not in the catalog completes normally, returning no
value at all and leaving the store unchanged — the source raises
`BadInputError` inside its own try block, catches it itself, prints a
message and falls off the end — instead of propagating an unknown-item
failure to the caller as the spec requires. -/
theorem claim_C5_swallowed :
    get_similarity 1 999 exSt.movie_dict exSt.user_dict = (none, exSt.movie_dict) := by
  decide

/-- C1: for a known user and known item with no stored rating, on a
well-formed store, `predict_rating` accumulates over every item the user
has rated `weightedSum += similarity * rating` and
`weightTotal += similarity` with no filtering of negative or zero
similarities, and returns `weightedSum / weightTotal` when `weightTotal`
is nonzero and exactly 2.5 when it is zero (including when the user has
rated nothing). -/
theorem claim_C1_prediction_formula (st : Movie_Recommendations) (u target : ℤ)
    (hok : cacheOK st.movie_dict st.user_dict)
    (hids : idsMatch st.movie_dict)
    (hnd : usersNodup st.movie_dict)
    (hls : lockstepD st)
    (hu : (lookupA st.user_dict u).isSome)
    (hm : (lookupA st.movie_dict target).isSome)
    (hnr : ratLookup st.user_dict u target = none) :
    ∃ md', predict_rating st u target
      = some ((if weightTotal st u target = 0 then 2.5
               else weightedSum st u target / weightTotal st u target),
              ⟨md', st.user_dict⟩) := by
  have hmem : u ∉ usersOf st.movie_dict target := by
    intro hmemu
    obtain ⟨mv, hmv⟩ := Option.isSome_iff_exists.mp hm
    have humem : u ∈ mv.users := by simpa [usersOf, hmv] using hmemu
    have hsome := hls.2 _ (lookupA_mem hmv) u humem
    rw [hnr] at hsome
    simp at hsome
  obtain ⟨inner, hinner⟩ := Option.isSome_iff_exists.mp hu
  have hinner2 : innerOf st.user_dict u = inner := by simp [innerOf, hinner]
  have hkeys : ∀ m ∈ (innerOf st.user_dict u).map (fun p => p.1),
      (ratLookup st.user_dict u m).isSome := by
    intro m hmk
    simpa [ratLookup] using lookupA_isSome_of_mem_keys hmk
  have hlmd : ∀ m ∈ (innerOf st.user_dict u).map (fun p => p.1),
      (lookupA st.movie_dict m).isSome := by
    intro m hmk
    obtain ⟨q, hq, hq1⟩ := List.mem_map.mp hmk
    rw [hinner2] at hq
    rw [← hq1]
    exact (hls.1 (u, inner) (lookupA_mem hinner) q hq).1
  obtain ⟨md', hloop, -, -⟩ := predictLoop_spec u target
    ((innerOf st.user_dict u).map (fun p => p.1)) st.movie_dict 0 0
    hok hids hnd hm hlmd hkeys
  refine ⟨md', ?_⟩
  unfold predict_rating
  rw [if_pos ⟨hu, hm⟩, if_neg hmem]
  dsimp only
  rw [hloop]
  simp only [zero_add]
  by_cases hz : weightTotal st u target = 0
  · rw [if_pos hz, show ((innerOf st.user_dict u).map (fun p => p.1)).map
        (fun m => compute_similarity m target st.movie_dict st.user_dict) =
        ((innerOf st.user_dict u).map (fun p => p.1)).map
        (fun m => compute_similarity m target st.movie_dict st.user_dict) from rfl]
    rw [show (((innerOf st.user_dict u).map (fun p => p.1)).map
        (fun m => compute_similarity m target st.movie_dict st.user_dict)).sum
        = weightTotal st u target from rfl, if_pos hz]
  · rw [show (((innerOf st.user_dict u).map (fun p => p.1)).map
        (fun m => compute_similarity m target st.movie_dict st.user_dict)).sum
        = weightTotal st u target from rfl, if_neg hz,
      show (((innerOf st.user_dict u).map (fun p => p.1)).map
        (fun m => compute_similarity m target st.movie_dict st.user_dict
          * ratD st.user_dict u m)).sum
        = weightedSum st u target from rfl, if_neg hz]

/-- Witness for C1 on the worked example: user 1 has not rated item 3; the
similarities of items 1 and 2 to item 3 are each 7/9, the weight total
14/9 is nonzero, and the prediction is (7/9 * 5 + 7/9 * 1) / (14/9) = 3,
matching the spec's end-to-end example. -/
theorem claim_C1_witness :
    weightTotal exSt 1 3 ≠ 0 ∧
    ∃ md', predict_rating exSt 1 3
      = some (weightedSum exSt 1 3 / weightTotal exSt 1 3, ⟨md', exSt.user_dict⟩) := by
  have hwt : weightTotal exSt 1 3 ≠ 0 := by
    norm_num [weightTotal, compute_similarity, usersOf, ratD, ratLookup, innerOf, lookupA,
      exSt, mkRecs, loadMovies, loadRatings, setA]
  refine ⟨hwt, ?_⟩
  obtain ⟨md', hmd'⟩ := claim_C1_prediction_formula exSt 1 3 (by decide) (by decide)
    (by decide) (by decide) (by decide) (by decide) (by decide)
  rw [if_neg hwt] at hmd'
  exact ⟨md', hmd'⟩

/-- C3: for every pair of known items a ≠ b, the computed similarity is 0.0
when no user rated both, and otherwise 1 - meanAbsDiff / 4.5 where
meanAbsDiff is the average over common raters of the absolute difference
of their two ratings; identical common ratings give exactly 1, and the
result is not clamped — mean disagreement beyond 4.5 yields a negative
similarity. -/
theorem claim_C3_similarity_formula (md : MovieDict) (ud : UserDict) (a b : ℤ)
    (ha : (lookupA md a).isSome) (hb : (lookupA md b).isSome) (hab : a ≠ b) :
    (commonRaters md a b = [] → compute_similarity a b md ud = 0) ∧
    (commonRaters md a b ≠ [] →
      compute_similarity a b md ud = 1 - meanAbsDiff md ud a b / 4.5) ∧
    (commonRaters md a b ≠ [] →
      (∀ u ∈ commonRaters md a b, ratD ud u a = ratD ud u b) →
      compute_similarity a b md ud = 1) ∧
    (meanAbsDiff md ud a b > 4.5 → compute_similarity a b md ud < 0) := by
  have he := compute_similarity_eq a b md ud
  refine ⟨fun h => by rw [he, if_pos h], fun h => by rw [he, if_neg h], ?_, ?_⟩
  · intro h hall
    rw [he, if_neg h]
    have hmz : meanAbsDiff md ud a b = 0 := by
      unfold meanAbsDiff
      rw [show (commonRaters md a b).map (fun u => |ratD ud u a - ratD ud u b|)
          = (commonRaters md a b).map (fun u => (0 : ℚ)) from
        List.map_congr_left fun u hu => by rw [hall u hu]; simp]
      simp
    rw [hmz]
    norm_num
  · intro hgt
    have hne : commonRaters md a b ≠ [] := by
      intro h0
      rw [meanAbsDiff, h0] at hgt
      norm_num at hgt
    rw [he, if_neg hne]
    have hdiv : meanAbsDiff md ud a b / 4.5 > 1 := by
      rw [gt_iff_lt, lt_div_iff (by norm_num : (0 : ℚ) < 4.5)]
      linarith
    linarith

/-- Witness for C3 on the worked example: items 1 and 3 share exactly rater
2, whose ratings are 4 and 3, so the similarity is 1 - 1/4.5 = 7/9. -/
theorem claim_C3_witness :
    compute_similarity 1 3 exSt.movie_dict exSt.user_dict
      = 1 - meanAbsDiff exSt.movie_dict exSt.user_dict 1 3 / 4.5 ∧
    meanAbsDiff exSt.movie_dict exSt.user_dict 1 3 = 1 :=
  ⟨(claim_C3_similarity_formula exSt.movie_dict exSt.user_dict 1 3 (by decide) (by decide)
      (by decide)).2.1 (by decide),
   by norm_num [meanAbsDiff, commonRaters, usersOf, ratD, ratLookup, innerOf, lookupA, exSt,
     mkRecs, loadMovies, loadRatings, setA]⟩

/-- C4: for known items a ≠ b on a well-formed store, similarity is
symmetric — querying (a,b) and (b,a) return the same value — because a
freshly computed value is stored under b in a's cache and under a in b's
cache before being returned, so a later lookup from either side returns
that same value. -/
theorem claim_C4_symmetry (md : MovieDict) (ud : UserDict) (a b : ℤ)
    (ha : (lookupA md a).isSome) (hb : (lookupA md b).isSome) (hab : a ≠ b)
    (hids : idsMatch md) (hnd : usersNodup md) (hsym : cacheSym md) :
    ((get_similarity a b md ud).1 = (get_similarity b a md ud).1) ∧
    (∀ v md', get_similarity a b md ud = (some v, md') →
      lookupA (simsAt md' a) b = some v ∧
      lookupA (simsAt md' b) a = some v ∧
      (get_similarity b a md' ud).1 = some v) := by
  have hba : b ≠ a := Ne.symm hab
  obtain ⟨selfA, hsa⟩ := Option.isSome_iff_exists.mp ha
  obtain ⟨selfB, hsb⟩ := Option.isSome_iff_exists.mp hb
  have hidA : selfA.id = a := hids _ (lookupA_mem hsa)
  have hidB : selfB.id = b := hids _ (lookupA_mem hsb)
  have hmirror : lookupA selfA.similarities b = lookupA selfB.similarities a :=
    hsym _ (lookupA_mem hsa) _ (lookupA_mem hsb)
  cases hcache : lookupA selfA.similarities b with
  | some s =>
    have hcache' : lookupA selfB.similarities a = some s := by
      rw [← hmirror, hcache]
    have h1 := get_similarity_hit_eq ud hsa hb hcache
    have h2 := get_similarity_hit_eq ud hsb ha hcache'
    constructor
    · rw [h1, h2]
    · intro v md' hcall
      rw [h1] at hcall
      simp only [Prod.mk.injEq, Option.some.injEq] at hcall
      obtain ⟨hv, hmd⟩ := hcall
      subst hv
      subst hmd
      refine ⟨by simpa [simsAt, hsa] using hcache, by simpa [simsAt, hsb] using hcache', ?_⟩
      rw [h2]
  | none =>
    have hcache' : lookupA selfB.similarities a = none := by
      rw [← hmirror, hcache]
    have hoAB : lookupA (setA md a
        (cacheInsert selfA b (compute_similarity selfA.id b md ud))) b = some selfB := by
      rw [lookupA_setA_ne _ _ _ _ hba]
      exact hsb
    have hoBA : lookupA (setA md b
        (cacheInsert selfB a (compute_similarity selfB.id a md ud))) a = some selfA := by
      rw [lookupA_setA_ne _ _ _ _ hab]
      exact hsa
    have h1 := get_similarity_miss_eq ud hsa hb hcache hoAB
    have h2 := get_similarity_miss_eq ud hsb ha hcache' hoBA
    have hcm : compute_similarity selfA.id b md ud = compute_similarity selfB.id a md ud := by
      rw [hidA, hidB]
      exact compute_similarity_comm hnd ud a b
    constructor
    · rw [h1, h2, hcm]
    · intro v md' hcall
      rw [h1] at hcall
      simp only [Prod.mk.injEq, Option.some.injEq] at hcall
      obtain ⟨hv, hmd⟩ := hcall
      have hlkA : lookupA md' a
          = some (cacheInsert selfA b (compute_similarity selfA.id b md ud)) := by
        rw [← hmd, lookupA_setA_ne _ _ _ _ hab, lookupA_setA_self]
      have hlkB : lookupA md' b
          = some (cacheInsert selfB selfA.id (compute_similarity selfA.id b md ud)) := by
        rw [← hmd, lookupA_setA_self]
      have hgA : lookupA (simsAt md' a) b = some v := by
        simp only [simsAt]
        rw [hlkA]
        simp only [cacheInsert, Option.map_some', Option.getD_some]
        rw [hv]
        exact lookupA_setA_self _ _ _
      have hgB : lookupA (simsAt md' b) a = some v := by
        simp only [simsAt]
        rw [hlkB]
        simp only [cacheInsert, Option.map_some', Option.getD_some]
        rw [hv, hidA]
        exact lookupA_setA_self _ _ _
      refine ⟨hgA, hgB, ?_⟩
      have hsB' : lookupA (cacheInsert selfB selfA.id
          (compute_similarity selfA.id b md ud)).similarities a = some v := by
        simpa [simsAt, hlkB] using hgB
      have hha : (lookupA md' a).isSome := by
        rw [hlkA]
        rfl
      rw [get_similarity_hit_eq ud hlkB hha hsB']

/-- Witness for C4 on the worked example: querying similarity (1,3) and
(3,1) on the fresh store return the same value. -/
theorem claim_C4_witness :
    (get_similarity 1 3 exSt.movie_dict exSt.user_dict).1
      = (get_similarity 3 1 exSt.movie_dict exSt.user_dict).1 :=
  (claim_C4_symmetry exSt.movie_dict exSt.user_dict 1 3 (by decide) (by decide) (by decide)
    (by decide) (by decide) (by decide)).1

/-! ## The evaluation reporter: Cauchy-Schwarz and the correlation bounds -/

theorem sumMul_self_nonneg (xs : List ℚ) : 0 ≤ sumMul xs xs := by
  induction xs with
  | nil => simp [sumMul]
  | cons x t ih =>
    have hx : 0 ≤ x * x := mul_self_nonneg x
    simpa [sumMul, List.zipWith] using add_nonneg hx ih

theorem sumMul_cauchy_schwarz : ∀ xs ys : List ℚ,
    (sumMul xs ys) ^ 2 ≤ sumMul xs xs * sumMul ys ys := by
  intro xs
  induction xs with
  | nil =>
    intro ys
    simp [sumMul]
  | cons x t ih =>
    intro ys
    cases ys with
    | nil => simp [sumMul]
    | cons y s =>
      have hIH := ih s
      have hX := sumMul_self_nonneg t
      have hY := sumMul_self_nonneg s
      have hexp : sumMul (x :: t) (y :: s) = x * y + sumMul t s := by
        simp [sumMul, List.zipWith]
      have hexp2 : sumMul (x :: t) (x :: t) = x * x + sumMul t t := by
        simp [sumMul, List.zipWith]
      have hexp3 : sumMul (y :: s) (y :: s) = y * y + sumMul s s := by
        simp [sumMul, List.zipWith]
      rw [hexp, hexp2, hexp3]
      rcases eq_or_lt_of_le hY with hY0 | hY0
      · have hS2 : sumMul t s ^ 2 ≤ 0 := by nlinarith
        have hS : sumMul t s = 0 :=
          (pow_eq_zero_iff two_ne_zero).mp (le_antisymm hS2 (sq_nonneg _))
        rw [hS, ← hY0]
        nlinarith [mul_nonneg hX (sq_nonneg y)]
      · nlinarith [sq_nonneg (x * sumMul s s - y * sumMul t s),
          mul_nonneg hY (sub_nonneg.2 hIH),
          mul_nonneg (sq_nonneg y) (sub_nonneg.2 hIH), hY0]

/-- C9 (amended): `correlation` fails with `LengthMismatch` on sequences of
different lengths; on equal-length sequences it fails with
`DegenerateInput` when either sequence has zero variance, and otherwise
returns the Pearson product-moment correlation coefficient, which lies in
[-1, 1]. -/
theorem claim_C9_correlation (xs ys : List ℚ) :
    (xs.length ≠ ys.length →
      correlation xs ys = Except.error CorrError.LengthMismatch) ∧
    (xs.length = ys.length →
      (sumMul (centered xs) (centered xs) = 0 ∨ sumMul (centered ys) (centered ys) = 0) →
      correlation xs ys = Except.error CorrError.DegenerateInput) ∧
    (xs.length = ys.length →
      sumMul (centered xs) (centered xs) ≠ 0 →
      sumMul (centered ys) (centered ys) ≠ 0 →
      ∃ r : ℝ, correlation xs ys = Except.ok r ∧ -1 ≤ r ∧ r ≤ 1) := by
  refine ⟨fun h => ?_, fun hlen hdeg => ?_, fun hlen hx hy => ?_⟩
  · unfold correlation
    rw [if_pos h]
  · unfold correlation
    rw [if_neg (not_not_intro hlen)]
    dsimp only
    rw [if_pos hdeg]
  · unfold correlation
    rw [if_neg (not_not_intro hlen)]
    dsimp only
    rw [if_neg (not_or.mpr ⟨hx, hy⟩)]
    have hxx : (0 : ℚ) < sumMul (centered xs) (centered xs) :=
      lt_of_le_of_ne (sumMul_self_nonneg _) (Ne.symm hx)
    have hyy : (0 : ℚ) < sumMul (centered ys) (centered ys) :=
      lt_of_le_of_ne (sumMul_self_nonneg _) (Ne.symm hy)
    have hcsQ := sumMul_cauchy_schwarz (centered xs) (centered ys)
    have hX : (0 : ℝ) < ((sumMul (centered xs) (centered xs) : ℚ) : ℝ) := by
      exact_mod_cast hxx
    have hY : (0 : ℝ) < ((sumMul (centered ys) (centered ys) : ℚ) : ℝ) := by
      exact_mod_cast hyy
    have hcs : ((sumMul (centered xs) (centered ys) : ℚ) : ℝ) ^ 2
        ≤ ((sumMul (centered xs) (centered xs) : ℚ) : ℝ)
          * ((sumMul (centered ys) (centered ys) : ℚ) : ℝ) := by
      exact_mod_cast hcsQ
    have hXY : (0 : ℝ) < ((sumMul (centered xs) (centered xs) : ℚ) : ℝ)
        * ((sumMul (centered ys) (centered ys) : ℚ) : ℝ) := mul_pos hX hY
    have hsqrt : (0 : ℝ) < Real.sqrt (((sumMul (centered xs) (centered xs) : ℚ) : ℝ)
        * ((sumMul (centered ys) (centered ys) : ℚ) : ℝ)) := Real.sqrt_pos.mpr hXY
    refine ⟨_, rfl, ?_, ?_⟩
    all_goals
      have habs : |((sumMul (centered xs) (centered ys) : ℚ) : ℝ)
          / Real.sqrt (((sumMul (centered xs) (centered xs) : ℚ) : ℝ)
            * ((sumMul (centered ys) (centered ys) : ℚ) : ℝ))| ≤ 1 := by
        rw [abs_div, abs_of_pos hsqrt, div_le_one hsqrt]
        calc |((sumMul (centered xs) (centered ys) : ℚ) : ℝ)|
            = Real.sqrt (((sumMul (centered xs) (centered ys) : ℚ) : ℝ) ^ 2) :=
              (Real.sqrt_sq_eq_abs _).symm
          _ ≤ _ := Real.sqrt_le_sqrt hcs
    · exact neg_le_of_abs_le habs
    · exact le_of_abs_le habs

/-- Witness for C9: length mismatch fails, and on the sequences [0, 1] and
[0, 1] (equal length, nonzero variance) the returned coefficient lies in
[-1, 1]. -/
theorem claim_C9_witness :
    correlation [(0 : ℚ)] [] = Except.error CorrError.LengthMismatch ∧
    ∃ r : ℝ, correlation [(0 : ℚ), 1] [(0 : ℚ), 1] = Except.ok r ∧ -1 ≤ r ∧ r ≤ 1 :=
  ⟨(claim_C9_correlation [(0 : ℚ)] []).1 (by decide),
   (claim_C9_correlation [(0 : ℚ), 1] [(0 : ℚ), 1]).2.2 rfl
     (by norm_num [sumMul, centered, listMean])
     (by norm_num [sumMul, centered, listMean])⟩

/-- Counterexample to C9 as stated: the equal-length constant sequences
[1, 1] and [1, 1] have zero variance, and `correlation` does not return a
value (the code's scipy delegate returns NaN there, modelled per the spec
as a `DegenerateInput` failure) — so equal lengths alone do not guarantee
a returned coefficient in [-1, 1]. -/
theorem claim_C9_counterexample :
    ([(1 : ℚ), 1].length = ([(1 : ℚ), 1] : List ℚ).length) ∧
    ¬ ∃ r : ℝ, correlation [(1 : ℚ), 1] [(1 : ℚ), 1] = Except.ok r := by
  refine ⟨rfl, ?_⟩
  have hc : correlation [(1 : ℚ), 1] [(1 : ℚ), 1]
      = Except.error CorrError.DegenerateInput := by
    unfold correlation
    rw [if_neg (by norm_num)]
    dsimp only
    rw [if_pos]
    left
    norm_num [sumMul, centered, listMean]
  rintro ⟨r, hr⟩
  rw [hc] at hr
  exact Except.noConfusion hr

end MovieRecs
